import Mathlib

/-!
Verification development for the Auth0 bootstrap/verify scripts of the
card-fraud rule-engine repository (`setup_auth0.py`, `verify_auth0.py`).

The Python code is shallowly embedded: each HTTP interaction is modelled by
explicit data (the sequence of responses the remote endpoint would produce),
stateful reconciliation is modelled by explicit state passing over a tenant
state, and every fallible operation returns an explicit result value.
-/

namespace Auth0Setup

/-! ## Retrying request client: `Auth0Mgmt._request` (setup_auth0.py, lines 124-159)

The remote side of one logical request is modelled by a function
`outcomes : Nat → AttemptOutcome α` giving, for each attempt number
(1-based, as in the Python loop `for attempt in range(1, max_attempts + 1)`),
either a transport-level failure (`httpx.TimeoutException` / `httpx.TransportError`)
or an HTTP response.  The `Retry-After` header of a response is modelled by
`Option (Option ℚ)`: `none` = header absent, `some none` = header present but
not parseable as a float (`ValueError` branch), `some (some q)` = header
parseable, with value `q`.  Sleep durations are exact rationals; the float
literal `0.8` is modelled as `4/5`. -/

/-- An HTTP response as `_request` observes it: status code, `Retry-After`
header, and the parsed JSON body (abstract type `α`). -/
structure HttpResponse (α : Type) where
  status : Nat
  retry_after : Option (Option ℚ)
  body : α
deriving DecidableEq

/-- What one attempt of the inner `self._client.request(...)` call yields:
either a raised transport/timeout error or a response. -/
inductive AttemptOutcome (α : Type) where
  | transportError : AttemptOutcome α
  | response : HttpResponse α → AttemptOutcome α
deriving DecidableEq

/-- How one `_request` call ends: a returned value (`none` models the Python
`None` returned on 204, `some b` the parsed body), a re-raised transport
error, a raised `HTTPStatusError` carrying the status, or the
`RuntimeError("Unexpected request retry state")` after the loop. -/
inductive ReqResult (α : Type) where
  | ok : Option α → ReqResult α
  | raisedTransport : ReqResult α
  | raisedStatus : Nat → ReqResult α
  | unexpectedState : ReqResult α
deriving DecidableEq

/-- Observable trace of one `_request` call: its final result, the number of
HTTP attempts issued, and the list of `time.sleep` durations in order. -/
structure RunTrace (α : Type) where
  result : ReqResult α
  attempts : Nat
  sleeps : List ℚ
deriving DecidableEq

/-- `max_attempts = 6` from the source. -/
def max_attempts : Nat := 6

/-- `retryable_statuses = {429, 500, 502, 503, 504}` from the source. -/
def retryable_statuses : List Nat := [429, 500, 502, 503, 504]

/-- `base_sleep = 0.8` from the source, as an exact rational. -/
def base_sleep : ℚ := 4 / 5

/-- Sleep computed in the retryable-status branch: `sleep_s = base_sleep * attempt`,
overridden by a parseable `Retry-After` header (`ValueError` leaves the
computed value in place). -/
def retry_sleep {α : Type} (r : HttpResponse α) (attempt : Nat) : ℚ :=
  match r.retry_after with
  | some (some q) => q
  | _ => base_sleep * (attempt : ℚ)

/-- `httpx.Response.raise_for_status` does not raise exactly on 2xx statuses. -/
def is_success (status : Nat) : Prop := 200 ≤ status ∧ status ≤ 299

instance (status : Nat) : Decidable (is_success status) := by
  unfold is_success; infer_instance

/-- The retry loop of `_request`, one Lean equation per loop iteration.
`attempt` is the 1-based attempt number; `fuel` is the number of loop
iterations remaining (the Python `for` loop performs `max_attempts` of them);
falling off the loop produces `unexpectedState`, modelling the trailing
`raise RuntimeError("Unexpected request retry state")`. -/
def request_aux {α : Type} (outcomes : Nat → AttemptOutcome α) :
    Nat → Nat → RunTrace α
  | _, 0 => ⟨ReqResult.unexpectedState, 0, []⟩
  | attempt, fuel + 1 =>
    match outcomes attempt with
    | AttemptOutcome.transportError =>
      if attempt = max_attempts then
        ⟨ReqResult.raisedTransport, 1, []⟩
      else
        let t := request_aux outcomes (attempt + 1) fuel
        ⟨t.result, t.attempts + 1, base_sleep * (attempt : ℚ) :: t.sleeps⟩
    | AttemptOutcome.response r =>
      if r.status ∈ retryable_statuses then
        if attempt = max_attempts then
          ⟨ReqResult.raisedStatus r.status, 1, []⟩
        else
          let t := request_aux outcomes (attempt + 1) fuel
          ⟨t.result, t.attempts + 1, retry_sleep r attempt :: t.sleeps⟩
      else if is_success r.status then
        ⟨ReqResult.ok (if r.status = 204 then none else some r.body), 1, []⟩
      else
        ⟨ReqResult.raisedStatus r.status, 1, []⟩

/-- One full `_request` call: attempts start at 1, the loop runs at most
`max_attempts` iterations. -/
def request {α : Type} (outcomes : Nat → AttemptOutcome α) : RunTrace α :=
  request_aux outcomes 1 max_attempts

/-- An attempt outcome that the retry loop treats as retryable. -/
def retryableOutcome {α : Type} : AttemptOutcome α → Prop
  | AttemptOutcome.transportError => True
  | AttemptOutcome.response r => r.status ∈ retryable_statuses

instance {α : Type} (o : AttemptOutcome α) : Decidable (retryableOutcome o) := by
  cases o <;> (unfold retryableOutcome; infer_instance)

/-- The error `_request` raises when the final attempt fails with outcome `o`. -/
def raisedOf {α : Type} : AttemptOutcome α → ReqResult α
  | AttemptOutcome.transportError => ReqResult.raisedTransport
  | AttemptOutcome.response r => ReqResult.raisedStatus r.status

/-- The sleep `_request` performs after a failed, non-final attempt numbered
`attempt` with outcome `o`. -/
def sleepFor {α : Type} : AttemptOutcome α → Nat → ℚ
  | AttemptOutcome.transportError, attempt => base_sleep * (attempt : ℚ)
  | AttemptOutcome.response r, attempt => retry_sleep r attempt

/-- Whether a request result is the post-loop
`RuntimeError("Unexpected request retry state")`. -/
def ReqResult.isUnexpectedState {α : Type} : ReqResult α → Bool
  | ReqResult.unexpectedState => true
  | _ => false

/-! ## Paginated client lookup: `Auth0Mgmt.list_clients` / `find_client_by_name`
(setup_auth0.py, lines 203-222)

The remote tenant's full client listing is a `List Client`; the listing
endpoint serves it in pages of `per_page = 50` items (`page` is 0-based, as
in the source). -/

/-- A client record as returned by the listing endpoint with
`fields = "client_id,name,app_type"`. -/
structure Client where
  client_id : String
  name : String
  app_type : String
deriving DecidableEq

/-- Page size used by `list_clients` (`per_page: int = 50`). -/
def per_page : Nat := 50

/-- `list_clients(page=page)`: one page of the remote listing `clients`. -/
def list_clients (clients : List Client) (page : Nat) : List Client :=
  (clients.drop (page * per_page)).take per_page

/-- The `while True` loop of `find_client_by_name`, starting at page `page`.
Alongside the result it counts the number of `list_clients` page fetches
issued.  The loop terminates because a recursive step only happens after a
full page of `per_page` items, which shrinks the part of the listing at or
beyond the current page. -/
def find_client_by_name_pages (clients : List Client) (name : String)
    (page : Nat) : Option Client × Nat :=
  if list_clients clients page = [] then
    (none, 1)
  else
    match (list_clients clients page).find? (fun c => c.name == name) with
    | some c => (some c, 1)
    | none =>
      if h50 : (list_clients clients page).length < 50 then
        (none, 1)
      else
        let rest := find_client_by_name_pages clients name (page + 1)
        (rest.1, rest.2 + 1)
termination_by clients.length + 1 - page * per_page
decreasing_by
  simp only [list_clients, List.length_take, List.length_drop, not_lt, per_page] at *
  omega

/-- `find_client_by_name(name)`: paginated search starting at `page = 0`. -/
def find_client_by_name (clients : List Client) (name : String) : Option Client :=
  (find_client_by_name_pages clients name 0).1

/-- Number of page fetches `find_client_by_name(name)` performs. -/
def find_client_fetches (clients : List Client) (name : String) : Nat :=
  (find_client_by_name_pages clients name 0).2

/-! ## Resource-server reconciliation: `ensure_resource_server`
(setup_auth0.py, lines 161-201 and 265-280)

The tenant's resource servers are a list plus a fresh-id counter.  The three
management calls used by `ensure_resource_server` are modelled as explicit
state transitions.  Modelled from the spec: the remote endpoint semantics
(`GET resource-servers?identifier=...` filters by identifier; `POST` appends
a new definition with a fresh id; `PATCH` performs an exact-replace update of
exactly the fields sent) follow the spec's external-collaborator description
(spec §6 and glossary "Exact-replace update"), since the identity provider
itself is not part of this repository. -/

/-- One scope entry `{"value": ..., "description": ...}`. -/
structure Scope where
  value : String
  description : String
deriving DecidableEq

/-- A resource-server definition with the fields the bootstrap script sends. -/
structure ResourceServer where
  id : Nat
  name : String
  identifier : String
  scopes : List Scope
  signing_alg : String
  allow_offline_access : Bool
  token_lifetime : Nat
  token_lifetime_for_web : Nat
  enforce_policies : Bool
  token_dialect : String
deriving DecidableEq

/-- Tenant-side state of the resource-servers collection. -/
structure A0State where
  servers : List ResourceServer
  nextId : Nat
deriving DecidableEq

/-- Management calls issued by `ensure_resource_server`, for tracing
create-vs-update behaviour. -/
inductive MgmtCall where
  | getResourceServers : MgmtCall
  | createResourceServer : MgmtCall
  | updateResourceServer : MgmtCall
deriving DecidableEq

/-- `find_resource_server_by_identifier`: the endpoint filters by
`identifier` (spec §6), then the Python loop returns the first result whose
`identifier` field matches. -/
def find_resource_server_by_identifier (st : A0State) (identifier : String) :
    Option ResourceServer :=
  (st.servers.filter (fun rs => rs.identifier == identifier)).find?
    (fun rs => rs.identifier == identifier)

/-- `create_resource_server`: POST with the full creation payload of the
source; the provider appends the definition under a fresh id and returns it. -/
def create_resource_server (st : A0State) (name identifier : String)
    (scopes : List Scope) : ResourceServer × A0State :=
  let created : ResourceServer :=
    { id := st.nextId
      name := name
      identifier := identifier
      scopes := scopes
      signing_alg := "RS256"
      allow_offline_access := true
      token_lifetime := 7200
      token_lifetime_for_web := 7200
      enforce_policies := true
      token_dialect := "access_token_authz" }
  (created, { servers := st.servers ++ [created], nextId := st.nextId + 1 })

/-- The exact-replace effect of the PATCH body sent by
`update_resource_server`: only the five fields in the payload
(`name`, `scopes`, `allow_offline_access`, `enforce_policies`,
`token_dialect`) are overwritten. -/
def apply_rs_patch (name : String) (scopes : List Scope)
    (rs : ResourceServer) : ResourceServer :=
  { rs with
    name := name
    scopes := scopes
    allow_offline_access := true
    enforce_policies := true
    token_dialect := "access_token_authz" }

/-- The element-wise update the PATCH of `update_resource_server` performs. -/
def patch_if (i : Nat) (name : String) (scopes : List Scope)
    (rs : ResourceServer) : ResourceServer :=
  if rs.id = i then apply_rs_patch name scopes rs else rs

/-- `update_resource_server`: PATCH `resource-servers/{id}`; the provider
replaces the sent fields on the definition with that id and returns the
updated definition (`none` models a 404 for an unknown id). -/
def update_resource_server (st : A0State) (resource_server_id : Nat)
    (name : String) (scopes : List Scope) : Option ResourceServer × A0State :=
  let servers' := st.servers.map (fun rs =>
    if rs.id = resource_server_id then apply_rs_patch name scopes rs else rs)
  (servers'.find? (fun rs => rs.id == resource_server_id),
   { st with servers := servers' })

/-- `ensure_resource_server`: look up by identifier; create when absent,
full-replace update when present.  Returns the resulting definition, the new
tenant state, and the list of management calls issued. -/
def ensure_resource_server (st : A0State) (identifier name : String)
    (scopes : List Scope) : Option ResourceServer × A0State × List MgmtCall :=
  match find_resource_server_by_identifier st identifier with
  | none =>
    (some (create_resource_server st name identifier scopes).1,
     (create_resource_server st name identifier scopes).2,
     [MgmtCall.getResourceServers, MgmtCall.createResourceServer])
  | some existing =>
    ((update_resource_server st existing.id name scopes).1,
     (update_resource_server st existing.id name scopes).2,
     [MgmtCall.getResourceServers, MgmtCall.updateResourceServer])

/-! ## Doppler secret sink: `sync_secrets_to_doppler` and the tail of `main`
(setup_auth0.py, lines 47-72 and 392-406) -/

/-- Outcome of one invocation of the external `doppler secrets set` command:
clean exit, non-zero return code with stderr text, or a raised exception
(`TimeoutExpired`, `FileNotFoundError`, anything else) with its text. -/
inductive SinkOutcome where
  | exitZero : SinkOutcome
  | exitNonZero : String → SinkOutcome
  | raisedExc : String → SinkOutcome
deriving DecidableEq

/-- `sync_secrets_to_doppler(secrets_dict)`: returns the function's boolean
result together with the list of sink invocations performed, each recorded as
the `KEY=value` pairs passed on the command line.  An empty dict returns
`True` without invoking the sink; any failure is caught, printed as a
warning, and turned into `False`. -/
def sync_secrets_to_doppler (secrets_dict : List (String × String))
    (sink : SinkOutcome) : Bool × List (List (String × String)) :=
  if secrets_dict = [] then
    (true, [])
  else
    match sink with
    | SinkOutcome.exitZero => (true, [secrets_dict])
    | SinkOutcome.exitNonZero _ => (false, [secrets_dict])
    | SinkOutcome.raisedExc _ => (false, [secrets_dict])

/-- The M2M client record as `main` inspects it: `client_id` always present,
`client_secret` present exactly when the create path ran. -/
structure M2MClientResult where
  client_id : String
  client_secret : Option String
deriving DecidableEq

/-- The secret-sync tail of `main` (lines 392-399) plus its return: builds
`m2m_secrets`, invokes the sink only when `client_secret` is in the result,
ignores the sink's boolean, and returns exit code 0.  Returns the list of
sink invocations and the exit code. -/
def main_secret_sync (m2m_client : M2MClientResult) (sink : SinkOutcome) :
    List (List (String × String)) × Nat :=
  let m2m_secrets := [("AUTH0_CLIENT_ID", m2m_client.client_id)]
  match m2m_client.client_secret with
  | some secret =>
    let m2m_secrets' := m2m_secrets ++ [("AUTH0_CLIENT_SECRET", secret)]
    ((sync_secrets_to_doppler m2m_secrets' sink).2, 0)
  | none => ([], 0)

end Auth0Setup

namespace Auth0Verify

open Auth0Setup

/-! ## Read-only verifier: `Auth0Verifier` (verify_auth0.py)

Each check issues GET requests whose outcomes are modelled by an environment
of responses: either an `httpx.HTTPError` (which in httpx covers both
transport errors and `HTTPStatusError` raised by `raise_for_status`) or the
parsed listing.  The two resource-server GETs (`verify_api_exists`,
`verify_api_scopes`) observe the same stable remote state, so they share one
response. -/

/-- `EXPECTED_SCOPES` from verify_auth0.py. -/
def EXPECTED_SCOPES : List String :=
  ["execute:rules", "read:results", "replay:transactions", "read:metrics"]

/-- An `httpx.HTTPError` with its display text. -/
structure HttpErr where
  msg : String
deriving DecidableEq

/-- A client-grant record as the verifier reads it (`audience`, `scope`;
`grant.get("scope", [])` defaults to the empty list, so `scope` is total). -/
structure Grant where
  client_id : String
  audience : String
  scope : List String
deriving DecidableEq

/-- `VerificationResult` dataclass from verify_auth0.py. -/
structure VerificationResult where
  name : String
  passed : Bool
  message : String
  details : List String
deriving DecidableEq

/-- Responses the remote endpoints produce for one verification run, plus the
verifier's configuration (`audience`, `m2m_name`). -/
structure VerifierEnv where
  audience : String
  m2m_name : String
  resource_servers_resp : Except HttpErr (List ResourceServer)
  clients_resp : Except HttpErr (List Client)
  client_grants_resp : String → Except HttpErr (List Grant)

/-- `verify_api_exists`: first resource server whose `identifier` matches the
audience; every exception is caught and reported as a failed result. -/
def verify_api_exists (env : VerifierEnv) : VerificationResult :=
  match env.resource_servers_resp with
  | Except.error e =>
    ⟨"API Exists", false, "Error checking API: " ++ e.msg, []⟩
  | Except.ok apis =>
    match apis.find? (fun a => a.identifier == env.audience) with
    | some api =>
      ⟨"API Exists", true,
        "API found: " ++ api.name ++ " (" ++ env.audience ++ ")",
        ["ID: " ++ toString api.id]⟩
    | none =>
      ⟨"API Exists", false,
        "API with audience '" ++ env.audience ++ "' not found",
        ["Found " ++ toString apis.length ++ " APIs, none match expected audience"]⟩

/-- `verify_api_scopes`: on the first resource server matching the audience,
`missing = EXPECTED_SCOPES − actual` fails the check when non-empty; `extra`
scopes are only recorded.  Every exception is caught into a failed result. -/
def verify_api_scopes (env : VerifierEnv) : VerificationResult :=
  match env.resource_servers_resp with
  | Except.error e =>
    ⟨"API Scopes", false, "Error checking scopes: " ++ e.msg, []⟩
  | Except.ok apis =>
    match apis.find? (fun a => a.identifier == env.audience) with
    | some api =>
      let api_scopes := api.scopes.map (fun s => s.value)
      let missing := EXPECTED_SCOPES.filter (fun s => !(api_scopes.contains s))
      let extra := api_scopes.filter (fun s => !(EXPECTED_SCOPES.contains s))
      if missing ≠ [] then
        ⟨"API Scopes", false,
          "Missing " ++ toString missing.length ++ " scope(s)",
          ["Missing: " ++ String.intercalate ", " missing]
            ++ (if extra ≠ [] then ["Extra: " ++ String.intercalate ", " extra] else [])⟩
      else
        ⟨"API Scopes", true,
          "All " ++ toString EXPECTED_SCOPES.length ++ " expected scopes present",
          ["Scopes: " ++ String.intercalate ", " api_scopes]⟩
    | none =>
      ⟨"API Scopes", false, "Cannot check scopes - API not found", []⟩

/-- `_find_m2m_client`: one unpaginated GET of the clients listing; the first
client whose name matches is returned; an `httpx.HTTPError` is swallowed and
yields `None`. -/
def verifier_find_m2m_client (env : VerifierEnv) : Option Client :=
  match env.clients_resp with
  | Except.error _ => none
  | Except.ok cs => cs.find? (fun c => c.name == env.m2m_name)

/-- `verify_m2m_app_exists`. -/
def verify_m2m_app_exists (env : VerifierEnv) : VerificationResult :=
  match verifier_find_m2m_client env with
  | some client =>
    ⟨"M2M App Exists", true,
      "M2M app found: " ++ env.m2m_name,
      ["Client ID: " ++ client.client_id, "App Type: " ++ client.app_type]⟩
  | none =>
    ⟨"M2M App Exists", false,
      "M2M app '" ++ env.m2m_name ++ "' not found",
      ["Searched all clients, none match expected name"]⟩

/-- `verify_client_grant`: needs the M2M client; then the first grant whose
audience matches, failing on missing expected scopes only. -/
def verify_client_grant (env : VerifierEnv) : VerificationResult :=
  match verifier_find_m2m_client env with
  | none =>
    ⟨"Client Grant", false, "Cannot check grant - M2M app not found", []⟩
  | some client =>
    match env.client_grants_resp client.client_id with
    | Except.error e =>
      ⟨"Client Grant", false, "Error checking client grant: " ++ e.msg, []⟩
    | Except.ok grants =>
      match grants.find? (fun g => g.audience == env.audience) with
      | some grant =>
        let grant_scopes := grant.scope
        let missing := EXPECTED_SCOPES.filter (fun s => !(grant_scopes.contains s))
        if missing ≠ [] then
          ⟨"Client Grant", false,
            "Grant exists but missing " ++ toString missing.length ++ " scope(s)",
            ["Missing: " ++ String.intercalate ", " missing]⟩
        else
          ⟨"Client Grant", true,
            "Client grant exists with all expected scopes",
            ["Scopes: " ++ String.intercalate ", " grant_scopes]⟩
      | none =>
        ⟨"Client Grant", false,
          "No grant found for audience '" ++ env.audience ++ "'", []⟩

/-- `run_all_checks`: all four checks, in order, unconditionally. -/
def run_all_checks (env : VerifierEnv) : List VerificationResult :=
  [verify_api_exists env, verify_api_scopes env,
   verify_m2m_app_exists env, verify_client_grant env]

/-- A remote state exactly matching the desired configuration: the API
definition with all four expected scopes, the M2M client, and a grant
carrying the same scopes. -/
def good_api : ResourceServer :=
  { id := 1
    name := "Fraud Rule Engine API"
    identifier := "https://fraud-rule-engine-api"
    scopes :=
      [⟨"execute:rules", "Execute rules for evaluation"⟩,
       ⟨"read:results", "Read execution results"⟩,
       ⟨"replay:transactions", "Replay historical transactions"⟩,
       ⟨"read:metrics", "Read execution metrics"⟩]
    signing_alg := "RS256"
    allow_offline_access := true
    token_lifetime := 7200
    token_lifetime_for_web := 7200
    enforce_policies := true
    token_dialect := "access_token_authz" }

/-- Verifier responses for the fully-provisioned remote state. -/
def good_env : VerifierEnv :=
  { audience := "https://fraud-rule-engine-api"
    m2m_name := "Fraud Rule Engine M2M"
    resource_servers_resp := Except.ok [good_api]
    clients_resp := Except.ok [⟨"cid1", "Fraud Rule Engine M2M", "non_interactive"⟩]
    client_grants_resp := fun cid =>
      Except.ok (if cid = "cid1" then
        [⟨"cid1", "https://fraud-rule-engine-api",
          ["execute:rules", "read:results", "replay:transactions", "read:metrics"]⟩]
      else []) }

/-- The same remote state with `read:metrics` removed from the API
definition's scope set. -/
def degraded_env : VerifierEnv :=
  { good_env with
    resource_servers_resp := Except.ok
      [{ good_api with
         scopes :=
           [⟨"execute:rules", "Execute rules for evaluation"⟩,
            ⟨"read:results", "Read execution results"⟩,
            ⟨"replay:transactions", "Replay historical transactions"⟩] }] }

/-- Modelled from the spec: the clients listing endpoint is paginated with
page size 50 (spec §4.2, §6), so the verifier's single GET without paging
parameters observes only the first page of the tenant's clients. -/
def first_listing_page (clients : List Client) : List Client :=
  clients.take 50

end Auth0Verify

namespace Auth0Setup

/-! ## Theorems about the retry loop -/

/-- One unfolding step of the retry loop. -/
lemma request_aux_succ {α : Type} (outcomes : Nat → AttemptOutcome α)
    (attempt fuel : Nat) :
    request_aux outcomes attempt (fuel + 1) =
      match outcomes attempt with
      | AttemptOutcome.transportError =>
        if attempt = max_attempts then
          ⟨ReqResult.raisedTransport, 1, []⟩
        else
          ⟨(request_aux outcomes (attempt + 1) fuel).result,
           (request_aux outcomes (attempt + 1) fuel).attempts + 1,
           base_sleep * (attempt : ℚ) :: (request_aux outcomes (attempt + 1) fuel).sleeps⟩
      | AttemptOutcome.response r =>
        if r.status ∈ retryable_statuses then
          if attempt = max_attempts then
            ⟨ReqResult.raisedStatus r.status, 1, []⟩
          else
            ⟨(request_aux outcomes (attempt + 1) fuel).result,
             (request_aux outcomes (attempt + 1) fuel).attempts + 1,
             retry_sleep r attempt :: (request_aux outcomes (attempt + 1) fuel).sleeps⟩
        else if is_success r.status then
          ⟨ReqResult.ok (if r.status = 204 then none else some r.body), 1, []⟩
        else
          ⟨ReqResult.raisedStatus r.status, 1, []⟩ := by
  rw [request_aux]

lemma request_aux_no_unexpected {α : Type} (outcomes : Nat → AttemptOutcome α) :
    ∀ m attempt, attempt + m = max_attempts →
      ((request_aux outcomes attempt (m + 1)).result).isUnexpectedState = false := by
  intro m
  induction m with
  | zero =>
    intro attempt h
    simp only [Nat.add_zero] at h
    subst h
    rw [request_aux_succ]
    cases houtc : outcomes max_attempts with
    | transportError => simp [ReqResult.isUnexpectedState]
    | response r =>
      by_cases hmem : r.status ∈ retryable_statuses <;>
        by_cases hs : is_success r.status <;>
        simp [hmem, hs, ReqResult.isUnexpectedState]
  | succ m ih =>
    intro attempt h
    have hne : attempt ≠ max_attempts := by
      simp only [max_attempts] at h ⊢; omega
    have hrec := ih (attempt + 1) (by omega)
    rw [request_aux_succ]
    cases houtc : outcomes attempt with
    | transportError => simpa [hne] using hrec
    | response r =>
      by_cases hmem : r.status ∈ retryable_statuses <;>
        by_cases hs : is_success r.status <;>
        simp [hmem, hs, hne, ReqResult.isUnexpectedState] <;>
        simpa [ReqResult.isUnexpectedState] using hrec

/-- C10: the `raise RuntimeError("Unexpected request retry state")` after the
retry loop of `Auth0Mgmt._request` is unreachable: for every sequence of
attempt outcomes, the call returns or raises within the 6 loop iterations and
never produces the post-loop state. -/
theorem c10_post_loop_unreachable {α : Type} (outcomes : Nat → AttemptOutcome α) :
    ((request outcomes).result).isUnexpectedState = false :=
  request_aux_no_unexpected outcomes 5 1 rfl

lemma request_aux_all_retryable {α : Type} (outcomes : Nat → AttemptOutcome α) :
    ∀ m attempt, attempt + m = max_attempts →
      (∀ k, attempt ≤ k → k ≤ max_attempts → retryableOutcome (outcomes k)) →
      (request_aux outcomes attempt (m + 1)).result = raisedOf (outcomes max_attempts) ∧
      (request_aux outcomes attempt (m + 1)).attempts = m + 1 := by
  intro m
  induction m with
  | zero =>
    intro attempt h hr
    simp only [Nat.add_zero] at h
    subst h
    have hk := hr max_attempts le_rfl le_rfl
    rw [request_aux_succ]
    cases houtc : outcomes max_attempts with
    | transportError =>
      simp [raisedOf]
    | response r =>
      rw [houtc] at hk
      simp only [retryableOutcome] at hk
      simp [hk, raisedOf]
  | succ m ih =>
    intro attempt h hr
    have hne : attempt ≠ max_attempts := by
      simp only [max_attempts] at h ⊢; omega
    have hrec := ih (attempt + 1) (by omega)
      (fun k hk1 hk2 => hr k (by omega) hk2)
    have hk := hr attempt le_rfl (by omega)
    rw [request_aux_succ]
    cases houtc : outcomes attempt with
    | transportError =>
      simp [hne, hrec.1, hrec.2]
    | response r =>
      rw [houtc] at hk
      simp only [retryableOutcome] at hk
      simp [hne, hk, hrec.1, hrec.2]

/-- C2: when all attempts fail with a retryable condition (transport error,
or HTTP status in {429, 500, 502, 503, 504}), `_request` makes exactly
6 attempts (1 initial + 5 retries) and raises the error of the last one. -/
theorem c2_retry_exhaustion {α : Type} (outcomes : Nat → AttemptOutcome α)
    (h : ∀ k, 1 ≤ k → k ≤ 6 → retryableOutcome (outcomes k)) :
    (request outcomes).attempts = 6 ∧
    (request outcomes).result = raisedOf (outcomes 6) := by
  have := request_aux_all_retryable outcomes 5 1 rfl (fun k hk1 hk2 => h k hk1 hk2)
  exact ⟨this.2, this.1⟩

/-- Witness for C2: a server that always answers 503 causes exactly 6
attempts, after which the 503 status error is raised. -/
theorem c2_retry_exhaustion_witness :
    (request (fun _ => AttemptOutcome.response (⟨503, none, ()⟩ : HttpResponse Unit))).attempts = 6 ∧
    (request (fun _ => AttemptOutcome.response (⟨503, none, ()⟩ : HttpResponse Unit))).result
      = ReqResult.raisedStatus 503 := by
  have h := c2_retry_exhaustion
    (fun _ => AttemptOutcome.response (⟨503, none, ()⟩ : HttpResponse Unit))
    (fun k _ _ => by simp [retryableOutcome, retryable_statuses])
  exact ⟨h.1, h.2⟩

lemma request_aux_sleeps {α : Type} (outcomes : Nat → AttemptOutcome α) :
    ∀ fuel attempt i (q : ℚ),
      (request_aux outcomes attempt fuel).sleeps[i]? = some q →
      q = sleepFor (outcomes (attempt + i)) (attempt + i) := by
  intro fuel
  induction fuel with
  | zero =>
    intro attempt i q h
    simp [request_aux] at h
  | succ fuel ih =>
    intro attempt i q h
    rw [request_aux_succ] at h
    cases houtc : outcomes attempt with
    | transportError =>
      rw [houtc] at h
      by_cases hne : attempt = max_attempts
      · simp [hne] at h
      · simp only [hne, if_false] at h
        cases i with
        | zero =>
          simp only [List.getElem?_cons_zero, Option.some_inj] at h
          rw [Nat.add_zero, houtc]
          simp [sleepFor, h]
        | succ i =>
          simp only [List.getElem?_cons_succ] at h
          have := ih (attempt + 1) i q h
          rwa [show attempt + (i + 1) = attempt + 1 + i by omega]
    | response r =>
      rw [houtc] at h
      by_cases hmem : r.status ∈ retryable_statuses
      · by_cases hne : attempt = max_attempts
        · simp [hmem, hne] at h
        · simp only [hmem, if_true, hne, if_false] at h
          cases i with
          | zero =>
            simp only [List.getElem?_cons_zero, Option.some_inj] at h
            rw [Nat.add_zero, houtc]
            simp [sleepFor, h]
          | succ i =>
            simp only [List.getElem?_cons_succ] at h
            have := ih (attempt + 1) i q h
            rwa [show attempt + (i + 1) = attempt + 1 + i by omega]
      · by_cases hs : is_success r.status <;> simp [hmem, hs] at h

/-- C6: every sleep between a failed attempt and the next is linear in the
attempt number: the sleep after failed attempt `i + 1` (the `i`-th recorded
sleep) is `base_sleep * (i + 1)` — i.e. `0.8 × attemptNumber` — except that a
retryable HTTP response whose `Retry-After` header parses as a number makes
that number the sleep for that attempt only. -/
theorem c6_linear_backoff_retry_after {α : Type}
    (outcomes : Nat → AttemptOutcome α) (i : Nat) (q : ℚ)
    (h : (request outcomes).sleeps[i]? = some q) :
    (outcomes (i + 1) = AttemptOutcome.transportError →
      q = base_sleep * ((i + 1 : Nat) : ℚ)) ∧
    (∀ r : HttpResponse α, outcomes (i + 1) = AttemptOutcome.response r →
      ((∀ ra : ℚ, r.retry_after ≠ some (some ra)) →
        q = base_sleep * ((i + 1 : Nat) : ℚ)) ∧
      (∀ ra : ℚ, r.retry_after = some (some ra) → q = ra)) := by
  have hq := request_aux_sleeps outcomes max_attempts 1 i q h
  rw [show 1 + i = i + 1 by omega] at hq
  refine ⟨fun ht => ?_, fun r hr => ⟨fun hnra => ?_, fun ra hra => ?_⟩⟩
  · rw [hq, ht]; simp [sleepFor]
  · rw [hq, hr]
    simp only [sleepFor]
    unfold retry_sleep
    cases hra : r.retry_after with
    | none => rfl
    | some o =>
      cases o with
      | none => rfl
      | some ra => exact absurd hra (hnra ra)
  · rw [hq, hr]
    simp [sleepFor, retry_sleep, hra]

/-- Witness for C6: a server answering 429 with `Retry-After: 2` makes the
first sleep exactly 2 seconds, not the computed backoff. -/
theorem c6_linear_backoff_retry_after_witness :
    (request (fun _ =>
      AttemptOutcome.response (⟨429, some (some 2), ()⟩ : HttpResponse Unit))).sleeps[0]?
        = some 2 ∧ (2 : ℚ) = 2 := by
  refine ⟨by decide, ?_⟩
  exact ((c6_linear_backoff_retry_after
    (fun _ => AttemptOutcome.response (⟨429, some (some 2), ()⟩ : HttpResponse Unit))
    0 2 (by decide)).2 ⟨429, some (some 2), ()⟩ rfl).2 2 rfl

lemma request_aux_stops_at {α : Type} (outcomes : Nat → AttemptOutcome α)
    (k : Nat) (r : HttpResponse α)
    (ho : outcomes k = AttemptOutcome.response r)
    (hnr : r.status ∉ retryable_statuses) :
    ∀ fuel attempt, attempt ≤ k → k < attempt + (fuel + 1) → k ≤ max_attempts →
      (∀ j, attempt ≤ j → j < k → retryableOutcome (outcomes j)) →
      (request_aux outcomes attempt (fuel + 1)).result
        = (if is_success r.status then
             ReqResult.ok (if r.status = 204 then none else some r.body)
           else ReqResult.raisedStatus r.status) ∧
      (request_aux outcomes attempt (fuel + 1)).attempts = k + 1 - attempt ∧
      (request_aux outcomes attempt (fuel + 1)).sleeps.length = k - attempt := by
  intro fuel
  induction fuel with
  | zero =>
    intro attempt h1 h2 hk6 _
    have hak : attempt = k := by omega
    subst hak
    rw [request_aux_succ, ho]
    by_cases hs : is_success r.status <;>
      simp [hnr, hs]
  | succ fuel ih =>
    intro attempt h1 h2 hk6 hpre
    by_cases hak : attempt = k
    · subst hak
      rw [request_aux_succ, ho]
      by_cases hs : is_success r.status <;>
        simp [hnr, hs]
    · have hlt : attempt < k := by omega
      have hne : attempt ≠ max_attempts := by omega
      have hj := hpre attempt le_rfl hlt
      have hrec := ih (attempt + 1) (by omega) (by omega) hk6
        (fun j hj1 hj2 => hpre j (by omega) hj2)
      rw [request_aux_succ]
      cases houtc : outcomes attempt with
      | transportError =>
        simp only [hne, if_false]
        refine ⟨hrec.1, ?_, ?_⟩ <;> simp [hrec.2.1, hrec.2.2] <;> omega
      | response r' =>
        rw [houtc] at hj
        simp only [retryableOutcome] at hj
        simp only [hj, if_true, hne, if_false]
        refine ⟨hrec.1, ?_, ?_⟩ <;> simp [hrec.2.1, hrec.2.2] <;> omega

/-- C8: with all attempts before `k` failing retryably, an HTTP response at
attempt `k` whose status is a non-retryable error makes `_request` raise it
at once — `k` total attempts and no sleep after attempt `k` — and a
successful response at attempt `k` returns at once, yielding `null` on 204
and the parsed body otherwise. -/
theorem c8_non_retryable_raise_and_success {α : Type}
    (outcomes : Nat → AttemptOutcome α) (k : Nat) (r : HttpResponse α)
    (hk1 : 1 ≤ k) (hk6 : k ≤ 6)
    (hpre : ∀ j, 1 ≤ j → j < k → retryableOutcome (outcomes j))
    (ho : outcomes k = AttemptOutcome.response r) :
    (r.status ∉ retryable_statuses → ¬ is_success r.status →
      (request outcomes).result = ReqResult.raisedStatus r.status ∧
      (request outcomes).attempts = k ∧
      (request outcomes).sleeps.length = k - 1) ∧
    (is_success r.status →
      (request outcomes).result
        = ReqResult.ok (if r.status = 204 then none else some r.body) ∧
      (request outcomes).attempts = k ∧
      (request outcomes).sleeps.length = k - 1) := by
  constructor
  · intro hnr hs
    have h := request_aux_stops_at outcomes k r ho hnr 5 1 hk1 (by omega) hk6
      (fun j hj1 hj2 => hpre j hj1 hj2)
    refine ⟨?_, ?_, h.2.2⟩
    · rw [show request outcomes = request_aux outcomes 1 (5 + 1) from rfl, h.1, if_neg hs]
    · rw [show request outcomes = request_aux outcomes 1 (5 + 1) from rfl, h.2.1]; omega
  · intro hs
    have hnr : r.status ∉ retryable_statuses := by
      intro hmem
      have h299 := hs.2
      simp [retryable_statuses] at hmem
      rcases hmem with h | h | h | h | h <;> omega
    have h := request_aux_stops_at outcomes k r ho hnr 5 1 hk1 (by omega) hk6
      (fun j hj1 hj2 => hpre j hj1 hj2)
    refine ⟨?_, ?_, h.2.2⟩
    · rw [show request outcomes = request_aux outcomes 1 (5 + 1) from rfl, h.1, if_pos hs]
    · rw [show request outcomes = request_aux outcomes 1 (5 + 1) from rfl, h.2.1]; omega

/-- Witness for C8: a first response of 403 (non-retryable) raises at once
with one attempt and no sleep; a first response of 204 returns `null` with
one attempt and no sleep. -/
theorem c8_non_retryable_raise_and_success_witness :
    ((request (fun _ =>
        AttemptOutcome.response (⟨403, none, ()⟩ : HttpResponse Unit))).result
      = ReqResult.raisedStatus 403 ∧
     (request (fun _ =>
        AttemptOutcome.response (⟨403, none, ()⟩ : HttpResponse Unit))).attempts = 1) ∧
    ((request (fun _ =>
        AttemptOutcome.response (⟨204, none, ()⟩ : HttpResponse Unit))).result
      = ReqResult.ok none ∧
     (request (fun _ =>
        AttemptOutcome.response (⟨204, none, ()⟩ : HttpResponse Unit))).sleeps.length = 0) := by
  have h403 := (c8_non_retryable_raise_and_success
    (fun _ => AttemptOutcome.response (⟨403, none, ()⟩ : HttpResponse Unit))
    1 ⟨403, none, ()⟩ le_rfl (by omega)
    (fun j hj1 hj2 => absurd hj2 (by omega)) rfl).1 (by decide) (by decide)
  have h204 := (c8_non_retryable_raise_and_success
    (fun _ => AttemptOutcome.response (⟨204, none, ()⟩ : HttpResponse Unit))
    1 ⟨204, none, ()⟩ le_rfl (by omega)
    (fun j hj1 hj2 => absurd hj2 (by omega)) rfl).2 (by decide)
  exact ⟨⟨h403.1, h403.2.1⟩, ⟨by simpa using h204.1, by simpa using h204.2.2⟩⟩

/-! ## Theorems about paginated lookup (claim C5) -/

/-- Unfolding equation for one iteration of the lookup loop. -/
lemma find_pages_eq (clients : List Client) (name : String) (page : Nat) :
    find_client_by_name_pages clients name page =
      if list_clients clients page = [] then
        (none, 1)
      else
        match (list_clients clients page).find? (fun c => c.name == name) with
        | some c => (some c, 1)
        | none =>
          if (list_clients clients page).length < 50 then
            (none, 1)
          else
            ((find_client_by_name_pages clients name (page + 1)).1,
             (find_client_by_name_pages clients name (page + 1)).2 + 1) := by
  rw [find_client_by_name_pages]
  split
  · rfl
  · split
    · rfl
    · rw [dite_eq_ite]

lemma find?_take_some {α : Type} {p : α → Bool} {l : List α} {k : Nat} {c : α}
    (h : (l.take k).find? p = some c) : l.find? p = some c := by
  conv_lhs => rw [← List.take_append_drop k l]
  rw [List.find?_append, h]
  rfl

lemma find?_take_none {α : Type} {p : α → Bool} {l : List α} {k : Nat}
    (h : (l.take k).find? p = none) : l.find? p = (l.drop k).find? p := by
  conv_lhs => rw [← List.take_append_drop k l]
  rw [List.find?_append, h]
  rfl

/-- The lookup returns the first match of the whole listing from the current
page onward. -/
lemma find_pages_fst (clients : List Client) (name : String) (page : Nat) :
    (find_client_by_name_pages clients name page).1
      = (clients.drop (page * per_page)).find? (fun c => c.name == name) := by
  induction page using find_client_by_name_pages.induct clients name with
  | case1 page hempty =>
    have hdrop : clients.drop (page * per_page) = [] := by
      rcases List.take_eq_nil_iff.mp hempty with h | h
      · exact absurd h (by simp [per_page])
      · exact h
    rw [find_pages_eq, if_pos hempty, hdrop]
    rfl
  | case2 page hne c hfind =>
    rw [find_pages_eq, if_neg hne, hfind]
    exact (find?_take_some hfind).symm
  | case3 page hne hfind hlen =>
    rw [find_pages_eq, if_neg hne, hfind]
    simp only [if_pos hlen]
    have hlen' : (clients.drop (page * per_page)).length ≤ per_page := by
      simp only [list_clients, List.length_take, per_page] at hlen ⊢
      omega
    rw [show list_clients clients page = clients.drop (page * per_page) from
      List.take_of_length_le hlen'] at hfind
    exact hfind.symm
  | case4 page hne hfind hnlt ih =>
    rw [find_pages_eq, if_neg hne, hfind]
    simp only [if_neg hnlt]
    have hstep : (clients.drop (page * per_page)).find? (fun c => c.name == name)
        = (clients.drop ((page + 1) * per_page)).find? (fun c => c.name == name) := by
      have h := find?_take_none (l := clients.drop (page * per_page))
        (k := per_page) hfind
      rw [h, List.drop_drop]
      have harith : page * per_page + per_page = (page + 1) * per_page := by ring
      rw [harith]
    rw [hstep]
    exact ih

/-- Every run of the loop fetches at least one page. -/
lemma find_pages_pos (clients : List Client) (name : String) (page : Nat) :
    1 ≤ (find_client_by_name_pages clients name page).2 := by
  induction page using find_client_by_name_pages.induct clients name with
  | case1 page hempty => rw [find_pages_eq, if_pos hempty]
  | case2 page hne c hfind =>
    rw [find_pages_eq, if_neg hne, hfind]
  | case3 page hne hfind hlen =>
    rw [find_pages_eq, if_neg hne, hfind]
    simp [if_pos hlen]
  | case4 page hne hfind hnlt ih =>
    rw [find_pages_eq, if_neg hne, hfind]
    simp only [if_neg hnlt]
    omega

/-- When the first match sits on 0-based page `p` of the listing from `page`
onward, the loop fetches exactly `p + 1` pages. -/
lemma find_pages_count (clients : List Client) (name : String) (page : Nat) :
    ∀ p : Nat,
      (∀ c ∈ (clients.drop (page * per_page)).take (p * per_page), ¬ c.name = name) →
      (∃ c ∈ (clients.drop (page * per_page)).take ((p + 1) * per_page), c.name = name) →
      (find_client_by_name_pages clients name page).2 = p + 1 := by
  induction page using find_client_by_name_pages.induct clients name with
  | case1 page hempty =>
    intro p hno hyes
    have hdrop : clients.drop (page * per_page) = [] := by
      rcases List.take_eq_nil_iff.mp hempty with h | h
      · exact absurd h (by simp [per_page])
      · exact h
    rw [hdrop] at hyes
    simp at hyes
  | case2 page hne c hfind =>
    intro p hno hyes
    rw [find_pages_eq, if_neg hne, hfind]
    cases p with
    | zero => rfl
    | succ q =>
      exfalso
      have hc : c ∈ list_clients clients page := List.mem_of_find?_eq_some hfind
      have hcname : c.name = name := by
        have := List.find?_some hfind
        simpa using this
      have h1 : (clients.drop (page * per_page)).take per_page
          = ((clients.drop (page * per_page)).take ((q + 1) * per_page)).take per_page := by
        rw [List.take_take]
        have hmin : min per_page ((q + 1) * per_page) = per_page := by
          simp only [per_page]; omega
        rw [hmin]
      have hc2 : c ∈ ((clients.drop (page * per_page)).take ((q + 1) * per_page)).take per_page := by
        rw [← h1]; exact hc
      exact hno c (List.take_subset _ _ hc2) hcname
  | case3 page hne hfind hlen =>
    intro p hno hyes
    exfalso
    have hlen' : (clients.drop (page * per_page)).length ≤ per_page := by
      simp only [list_clients, List.length_take, per_page] at hlen ⊢
      omega
    have hl : list_clients clients page = clients.drop (page * per_page) :=
      List.take_of_length_le hlen'
    obtain ⟨c, hc, hcname⟩ := hyes
    have hcl : c ∈ list_clients clients page := by
      rw [hl]; exact List.take_subset _ _ hc
    have := List.find?_eq_none.mp hfind c hcl
    simp [hcname] at this
  | case4 page hne hfind hnlt ih =>
    intro p hno hyes
    rw [find_pages_eq, if_neg hne, hfind]
    simp only [if_neg hnlt]
    have hdd : (clients.drop (page * per_page)).drop per_page
        = clients.drop ((page + 1) * per_page) := by
      rw [List.drop_drop]; congr 1; ring
    cases p with
    | zero =>
      exfalso
      obtain ⟨c, hc, hcname⟩ := hyes
      have hc' : c ∈ list_clients clients page := by
        simpa [list_clients, Nat.one_mul] using hc
      have := List.find?_eq_none.mp hfind c hc'
      simp [hcname] at this
    | succ q =>
      have hno' : ∀ c ∈ (clients.drop ((page + 1) * per_page)).take (q * per_page),
          ¬ c.name = name := by
        intro c hc hcname
        apply hno c _ hcname
        have harith : (q + 1) * per_page = per_page + q * per_page := by ring
        rw [harith, List.take_add, hdd]
        exact List.mem_append_right _ hc
      have hyes' : ∃ c ∈ (clients.drop ((page + 1) * per_page)).take ((q + 1) * per_page),
          c.name = name := by
        obtain ⟨c, hc, hcname⟩ := hyes
        have harith : (q + 1 + 1) * per_page = per_page + (q + 1) * per_page := by ring
        rw [harith, List.take_add, hdd] at hc
        rcases List.mem_append.mp hc with hleft | hright
        · exfalso
          have := List.find?_eq_none.mp hfind c hleft
          simp [hcname] at this
        · exact ⟨c, hright, hcname⟩
      have hq := ih q hno' hyes'
      show (find_client_by_name_pages clients name (page + 1)).2 + 1 = q + 1 + 1
      omega

/-- A listing suffix without any match: the loop returns `none` and fetches
`floor(M / 50) + 1` pages, `M` the length of the remaining listing. -/
lemma find_pages_nomatch (clients : List Client) (name : String) (page : Nat) :
    (∀ c ∈ clients.drop (page * per_page), ¬ c.name = name) →
      (find_client_by_name_pages clients name page).1 = none ∧
      (find_client_by_name_pages clients name page).2
        = (clients.length - page * per_page) / per_page + 1 := by
  induction page using find_client_by_name_pages.induct clients name with
  | case1 page hempty =>
    intro hno
    have hdrop : clients.drop (page * per_page) = [] := by
      rcases List.take_eq_nil_iff.mp hempty with h | h
      · exact absurd h (by simp [per_page])
      · exact h
    have hlen0 : clients.length - page * per_page = 0 := by
      have := congrArg List.length hdrop
      simpa using this
    rw [find_pages_eq, if_pos hempty]
    constructor
    · trivial
    · rw [hlen0]
      simp [per_page]
  | case2 page hne c hfind =>
    intro hno
    exfalso
    have hc : c ∈ list_clients clients page := List.mem_of_find?_eq_some hfind
    have hcname : c.name = name := by
      have := List.find?_some hfind
      simpa using this
    exact hno c (List.take_subset _ _ hc) hcname
  | case3 page hne hfind hlen =>
    intro hno
    rw [find_pages_eq, if_neg hne, hfind]
    simp only [if_pos hlen]
    refine ⟨by trivial, ?_⟩
    simp only [list_clients, List.length_take, List.length_drop, per_page] at hlen ⊢
    omega
  | case4 page hne hfind hnlt ih =>
    intro hno
    rw [find_pages_eq, if_neg hne, hfind]
    simp only [if_neg hnlt]
    have hdd : (clients.drop (page * per_page)).drop per_page
        = clients.drop ((page + 1) * per_page) := by
      rw [List.drop_drop]; congr 1; ring
    have hno' : ∀ c ∈ clients.drop ((page + 1) * per_page), ¬ c.name = name := by
      intro c hc hcname
      apply hno c _ hcname
      rw [← hdd] at hc
      exact List.drop_subset _ _ hc
    have hih := ih hno'
    refine ⟨hih.1, ?_⟩
    show (find_client_by_name_pages clients name (page + 1)).2 + 1 = _
    rw [hih.2]
    simp only [list_clients, List.length_take, List.length_drop, per_page] at hnlt ⊢
    omega

/-- After `k + 1` full, match-free pages the loop has necessarily requested
at least `k + 2` pages. -/
lemma find_pages_advance (clients : List Client) (name : String) (page : Nat) :
    ∀ k : Nat,
      (∀ c ∈ (clients.drop (page * per_page)).take ((k + 1) * per_page), ¬ c.name = name) →
      (k + 1) * per_page ≤ (clients.drop (page * per_page)).length →
      k + 2 ≤ (find_client_by_name_pages clients name page).2 := by
  induction page using find_client_by_name_pages.induct clients name with
  | case1 page hempty =>
    intro k hno hlen
    exfalso
    have hdrop : clients.drop (page * per_page) = [] := by
      rcases List.take_eq_nil_iff.mp hempty with h | h
      · exact absurd h (by simp [per_page])
      · exact h
    rw [hdrop] at hlen
    simp only [List.length_nil, per_page] at hlen
    omega
  | case2 page hne c hfind =>
    intro k hno hlen
    exfalso
    have hc : c ∈ list_clients clients page := List.mem_of_find?_eq_some hfind
    have hcname : c.name = name := by
      have := List.find?_some hfind
      simpa using this
    have h1 : (clients.drop (page * per_page)).take per_page
        = ((clients.drop (page * per_page)).take ((k + 1) * per_page)).take per_page := by
      rw [List.take_take]
      have hmin : min per_page ((k + 1) * per_page) = per_page := by
        simp only [per_page]; omega
      rw [hmin]
    have hc2 : c ∈ ((clients.drop (page * per_page)).take ((k + 1) * per_page)).take per_page := by
      rw [← h1]; exact hc
    exact hno c (List.take_subset _ _ hc2) hcname
  | case3 page hne hfind hlen =>
    intro k hno hlen2
    exfalso
    simp only [list_clients, List.length_take, List.length_drop, per_page] at hlen hlen2
    omega
  | case4 page hne hfind hnlt ih =>
    intro k hno hlen
    rw [find_pages_eq, if_neg hne, hfind]
    simp only [if_neg hnlt]
    have hdd : (clients.drop (page * per_page)).drop per_page
        = clients.drop ((page + 1) * per_page) := by
      rw [List.drop_drop]; congr 1; ring
    cases k with
    | zero =>
      have := find_pages_pos clients name (page + 1)
      show 2 ≤ (find_client_by_name_pages clients name (page + 1)).2 + 1
      omega
    | succ j =>
      have hno' : ∀ c ∈ (clients.drop ((page + 1) * per_page)).take ((j + 1) * per_page),
          ¬ c.name = name := by
        intro c hc hcname
        apply hno c _ hcname
        have harith : (j + 1 + 1) * per_page = per_page + (j + 1) * per_page := by ring
        rw [harith, List.take_add, hdd]
        exact List.mem_append_right _ hc
      have hlen' : (j + 1) * per_page ≤ (clients.drop ((page + 1) * per_page)).length := by
        rw [← hdd]
        simp only [List.length_drop] at hlen ⊢
        simp only [per_page] at hlen ⊢
        omega
      have := ih j hno' hlen'
      show j + 1 + 2 ≤ (find_client_by_name_pages clients name (page + 1)).2 + 1
      omega

/-- C5: `find_client_by_name` terminates and returns the first client of the
listing whose name matches; with the first match on 0-based page `p` it
fetches exactly `p + 1 ≤ ceil(N/50)` pages (so exactly `ceil(N/50)` when the
match is on the last page, fewer when found earlier); with no match it
returns `none` after `floor(N/50) + 1` fetches, the last fetched page having
fewer than 50 items; and after any match-free page of exactly 50 items it
always requests another page. -/
theorem c5_find_client_pagination (clients : List Client) (name : String) :
    (find_client_by_name clients name = clients.find? (fun c => c.name == name)) ∧
    (∀ p : Nat,
      (∀ c ∈ clients.take (p * per_page), ¬ c.name = name) →
      (∃ c ∈ clients.take ((p + 1) * per_page), c.name = name) →
      find_client_fetches clients name = p + 1 ∧
        p + 1 ≤ (clients.length + 49) / 50) ∧
    ((∀ c ∈ clients.take (((clients.length + 49) / 50 - 1) * per_page), ¬ c.name = name) →
      (∃ c ∈ clients, c.name = name) →
      find_client_fetches clients name = (clients.length + 49) / 50) ∧
    ((∀ c ∈ clients, ¬ c.name = name) →
      find_client_by_name clients name = none ∧
      find_client_fetches clients name = clients.length / 50 + 1 ∧
      (list_clients clients (clients.length / 50)).length < 50) ∧
    (∀ k : Nat,
      (∀ c ∈ clients.take ((k + 1) * per_page), ¬ c.name = name) →
      (k + 1) * per_page ≤ clients.length →
      k + 2 ≤ find_client_fetches clients name) := by
  refine ⟨?_, ?_, ?_, ?_, ?_⟩
  · show (find_client_by_name_pages clients name 0).1 = _
    rw [find_pages_fst]
    simp
  · intro p hno hyes
    constructor
    · have := find_pages_count clients name 0 p (by simpa using hno) (by simpa using hyes)
      simpa [find_client_fetches] using this
    · by_cases hN : clients.length ≤ p * per_page
      · exfalso
        obtain ⟨c, hc, hcname⟩ := hyes
        have hcc : c ∈ clients := List.take_subset _ _ hc
        have htake : clients.take (p * per_page) = clients := List.take_of_length_le hN
        exact hno c (by rw [htake]; exact hcc) hcname
      · push_neg at hN
        simp only [per_page] at hN ⊢
        omega
  · intro hno hyes
    obtain ⟨c0, hc0, hcn0⟩ := hyes
    have hN1 : 1 ≤ clients.length := List.length_pos.mpr (List.ne_nil_of_mem hc0)
    have hP1 : 1 ≤ (clients.length + 49) / 50 := by omega
    have hcover : clients.length ≤ ((clients.length + 49) / 50) * per_page := by
      simp only [per_page]
      omega
    have hwin : ∃ c ∈ clients.take
        ((((clients.length + 49) / 50 - 1) + 1) * per_page), c.name = name := by
      have harith : ((clients.length + 49) / 50 - 1) + 1 = (clients.length + 49) / 50 := by
        omega
      rw [harith, List.take_of_length_le hcover]
      exact ⟨c0, hc0, hcn0⟩
    have := find_pages_count clients name 0 ((clients.length + 49) / 50 - 1)
      (by simpa using hno) (by simpa using hwin)
    have hfc : find_client_fetches clients name = (clients.length + 49) / 50 - 1 + 1 := by
      simpa [find_client_fetches] using this
    omega
  · intro hno
    have h := find_pages_nomatch clients name 0 (by simpa using hno)
    refine ⟨?_, ?_, ?_⟩
    · simpa [find_client_by_name] using h.1
    · simpa [find_client_fetches, per_page] using h.2
    · simp only [list_clients, List.length_take, List.length_drop, per_page]
      omega
  · intro k hno hlen
    have := find_pages_advance clients name 0 k (by simpa using hno)
      (by simpa using hlen)
    simpa [find_client_fetches] using this

/-- Witness for C5: a two-client listing with the match in the first page is
found with exactly one page fetch, and the returned client is the match. -/
theorem c5_find_client_pagination_witness :
    find_client_by_name
        [⟨"id1", "a", "t"⟩, ⟨"id2", "b", "t"⟩] "b" = some ⟨"id2", "b", "t"⟩ ∧
    find_client_fetches [⟨"id1", "a", "t"⟩, ⟨"id2", "b", "t"⟩] "b" = 1 := by
  have h := c5_find_client_pagination [⟨"id1", "a", "t"⟩, ⟨"id2", "b", "t"⟩] "b"
  constructor
  · rw [h.1]
    decide
  · exact (h.2.1 0 (by simp) ⟨⟨"id2", "b", "t"⟩, by simp [per_page], rfl⟩).1

/-! ## Theorems about the secret sink (claim C3) -/

/-- C3: in one bootstrap run, the Doppler sink is invoked exactly once when
the M2M client result carries a `client_secret` (create path), with both the
client id and the client secret forwarded; it is never invoked when the
secret is absent (update path); and whatever the sink does — clean exit,
non-zero exit, or raised exception — the run returns exit code 0. -/
theorem c3_secret_sink_once :
    ∀ (cid secret : String) (sink : SinkOutcome),
      (main_secret_sync ⟨cid, some secret⟩ sink).1
        = [[("AUTH0_CLIENT_ID", cid), ("AUTH0_CLIENT_SECRET", secret)]] ∧
      (main_secret_sync ⟨cid, some secret⟩ sink).2 = 0 ∧
      (main_secret_sync ⟨cid, none⟩ sink).1 = [] ∧
      (main_secret_sync ⟨cid, none⟩ sink).2 = 0 := by
  intro cid secret sink
  cases sink <;> simp [main_secret_sync, sync_secrets_to_doppler]

/-! ## Theorems about resource-server reconciliation (claim C1) -/

lemma find?_filter_self {α : Type} (p : α → Bool) (l : List α) :
    (l.filter p).find? p = l.find? p := by
  induction l with
  | nil => rfl
  | cons a l ih =>
    by_cases hpa : p a = true
    · simp [List.filter_cons, hpa]
    · have hfa : p a = false := by simpa using hpa
      simp [List.filter_cons, hfa, ih]

lemma find?_map_inv {α : Type} (f : α → α) (p : α → Bool) (l : List α)
    (hf : ∀ x, p (f x) = p x) :
    (l.map f).find? p = (l.find? p).map f := by
  induction l with
  | nil => rfl
  | cons a l ih =>
    by_cases hpa : p a = true
    · simp [List.find?_cons_of_pos, hpa, hf]
    · have hfa : p a = false := by simpa using hpa
      simp only [List.map_cons]
      rw [List.find?_cons_of_neg, List.find?_cons_of_neg]
      · exact ih
      · simp [hfa]
      · simp [hf, hfa]

lemma find?_id_nodup (l : List ResourceServer) (e : ResourceServer)
    (hn : (l.map (fun rs => rs.id)).Nodup) (he : e ∈ l) :
    l.find? (fun rs => rs.id == e.id) = some e := by
  induction l with
  | nil => cases he
  | cons a l ih =>
    have hn' : (∀ x ∈ l, ¬ x.id = a.id) ∧ (l.map (fun rs => rs.id)).Nodup := by
      simpa using hn
    rcases List.mem_cons.mp he with rfl | hmem
    · simp
    · have hna : (a.id == e.id) = false := by
        simp only [beq_eq_false_iff_ne, ne_eq]
        intro hEq
        exact hn'.1 e hmem hEq.symm
      rw [List.find?_cons_of_neg _ (by simp [hna])]
      exact ih hn'.2 hmem

lemma apply_rs_patch_identifier (name : String) (scopes : List Scope)
    (rs : ResourceServer) :
    (apply_rs_patch name scopes rs).identifier = rs.identifier := rfl

lemma apply_rs_patch_id (name : String) (scopes : List Scope)
    (rs : ResourceServer) :
    (apply_rs_patch name scopes rs).id = rs.id := rfl

lemma apply_rs_patch_idem (name : String) (scopes : List Scope)
    (rs : ResourceServer) :
    apply_rs_patch name scopes (apply_rs_patch name scopes rs)
      = apply_rs_patch name scopes rs := rfl

lemma patch_if_id (i : Nat) (name : String) (scopes : List Scope)
    (rs : ResourceServer) : (patch_if i name scopes rs).id = rs.id := by
  unfold patch_if
  by_cases h : rs.id = i <;> simp [h, apply_rs_patch_id]

lemma patch_if_identifier (i : Nat) (name : String) (scopes : List Scope)
    (rs : ResourceServer) :
    (patch_if i name scopes rs).identifier = rs.identifier := by
  unfold patch_if
  by_cases h : rs.id = i <;> simp [h, apply_rs_patch_identifier]

lemma patch_if_idem (i : Nat) (name : String) (scopes : List Scope)
    (rs : ResourceServer) :
    patch_if i name scopes (patch_if i name scopes rs)
      = patch_if i name scopes rs := by
  unfold patch_if
  by_cases h : rs.id = i
  · simp [h, apply_rs_patch_id, apply_rs_patch_idem]
  · simp [h]

lemma update_resource_server_eq (st : A0State) (i : Nat) (name : String)
    (scopes : List Scope) :
    update_resource_server st i name scopes
      = ((st.servers.map (patch_if i name scopes)).find? (fun rs => rs.id == i),
         { st with servers := st.servers.map (patch_if i name scopes) }) := rfl

lemma find_resource_server_eq (st : A0State) (identifier : String) :
    find_resource_server_by_identifier st identifier
      = st.servers.find? (fun rs => rs.identifier == identifier) :=
  find?_filter_self _ _

/-- C1: with a definition for the identifier already present (ids and
identifiers unique, ids below the fresh counter), `ensure_resource_server`
issues one lookup and one full-replace update — never a create — after which
the unique definition with that identifier carries exactly the desired scope
set; and a repeated call with identical arguments performs an update again
and leaves the remote state literally unchanged (this second part holds from
any starting state, whether the first call created or updated). -/
theorem c1_ensure_resource_server_convergence
    (st : A0State) (identifier name : String) (scopes : List Scope)
    (hid : (st.servers.map (fun rs => rs.id)).Nodup)
    (hfresh : ∀ rs ∈ st.servers, rs.id < st.nextId)
    (hident : (st.servers.map (fun rs => rs.identifier)).Nodup) :
    ((∃ rs ∈ st.servers, rs.identifier = identifier) →
      (ensure_resource_server st identifier name scopes).2.2
        = [MgmtCall.getResourceServers, MgmtCall.updateResourceServer] ∧
      ∃ u, (ensure_resource_server st identifier name scopes).1 = some u ∧
        u ∈ (ensure_resource_server st identifier name scopes).2.1.servers ∧
        u.identifier = identifier ∧ u.scopes = scopes ∧
        ∀ v ∈ (ensure_resource_server st identifier name scopes).2.1.servers,
          v.identifier = identifier → v = u) ∧
    (ensure_resource_server
        (ensure_resource_server st identifier name scopes).2.1 identifier name scopes).2.1
      = (ensure_resource_server st identifier name scopes).2.1 ∧
    (ensure_resource_server
        (ensure_resource_server st identifier name scopes).2.1 identifier name scopes).2.2
      = [MgmtCall.getResourceServers, MgmtCall.updateResourceServer] := by
  cases hf : st.servers.find? (fun rs => rs.identifier == identifier) with
  | none =>
    have e1 : ensure_resource_server st identifier name scopes
        = (some (create_resource_server st name identifier scopes).1,
           (create_resource_server st name identifier scopes).2,
           [MgmtCall.getResourceServers, MgmtCall.createResourceServer]) := by
      unfold ensure_resource_server
      rw [find_resource_server_eq, hf]
    have hcid : (create_resource_server st name identifier scopes).1.identifier
        = identifier := rfl
    have hfind2 : ((create_resource_server st name identifier scopes).2).servers.find?
        (fun rs => rs.identifier == identifier)
        = some (create_resource_server st name identifier scopes).1 := by
      show (st.servers ++ [(create_resource_server st name identifier scopes).1]).find?
          (fun rs => rs.identifier == identifier) = _
      rw [List.find?_append, hf]
      simp [hcid]
    have hmapid : ((create_resource_server st name identifier scopes).2).servers.map
        (patch_if (create_resource_server st name identifier scopes).1.id name scopes)
        = ((create_resource_server st name identifier scopes).2).servers := by
      have hp : ∀ x ∈ (create_resource_server st name identifier scopes).2.servers,
          patch_if (create_resource_server st name identifier scopes).1.id name scopes x
            = id x := by
        intro x hx
        rcases List.mem_append.mp hx with hold | hnew
        · have hxlt : x.id < st.nextId := hfresh x hold
          have hne : x.id ≠ (create_resource_server st name identifier scopes).1.id := by
            show x.id ≠ st.nextId
            omega
          simp [patch_if, hne]
        · have hx1 : x = (create_resource_server st name identifier scopes).1 := by
            simpa using hnew
          subst hx1
          simp only [patch_if, if_pos rfl, id]
          rfl
      rw [List.map_congr_left hp, List.map_id]
    refine ⟨?_, ?_, ?_⟩
    · rintro ⟨rs, hrs, hrsid⟩
      exfalso
      have := List.find?_eq_none.mp hf rs hrs
      simp [hrsid] at this
    · rw [e1]
      show (ensure_resource_server
          (create_resource_server st name identifier scopes).2 identifier name scopes).2.1
        = (create_resource_server st name identifier scopes).2
      unfold ensure_resource_server
      rw [find_resource_server_eq, hfind2]
      dsimp only
      rw [update_resource_server_eq]
      dsimp only
      rw [hmapid]
    · rw [e1]
      show (ensure_resource_server
          (create_resource_server st name identifier scopes).2 identifier name scopes).2.2
        = _
      unfold ensure_resource_server
      rw [find_resource_server_eq, hfind2]
  | some e =>
    have he_mem : e ∈ st.servers := List.mem_of_find?_eq_some hf
    have he_id : e.identifier = identifier := by simpa using List.find?_some hf
    have hfid_pred : ∀ x : ResourceServer,
        ((patch_if e.id name scopes x).identifier == identifier)
          = (x.identifier == identifier) := by
      intro x; rw [patch_if_identifier]
    have hfid_idpred : ∀ x : ResourceServer,
        ((patch_if e.id name scopes x).id == e.id) = (x.id == e.id) := by
      intro x; rw [patch_if_id]
    have hfind_id : st.servers.find? (fun rs => rs.id == e.id) = some e :=
      find?_id_nodup st.servers e hid he_mem
    have hmapfind : (st.servers.map (patch_if e.id name scopes)).find?
        (fun rs => rs.id == e.id) = some (patch_if e.id name scopes e) := by
      rw [find?_map_inv _ _ _ hfid_idpred, hfind_id]
      rfl
    have hfe : patch_if e.id name scopes e = apply_rs_patch name scopes e := by
      simp [patch_if]
    have e1 : ensure_resource_server st identifier name scopes
        = (some (apply_rs_patch name scopes e),
           { st with servers := st.servers.map (patch_if e.id name scopes) },
           [MgmtCall.getResourceServers, MgmtCall.updateResourceServer]) := by
      unfold ensure_resource_server
      rw [find_resource_server_eq, hf]
      dsimp only
      rw [update_resource_server_eq]
      dsimp only
      rw [hmapfind, hfe]
    have hfind2 : (st.servers.map (patch_if e.id name scopes)).find?
        (fun rs => rs.identifier == identifier)
        = some (patch_if e.id name scopes e) := by
      rw [find?_map_inv _ _ _ hfid_pred, hf]
      rfl
    have hmapmap : (st.servers.map (patch_if e.id name scopes)).map
        (patch_if e.id name scopes)
        = st.servers.map (patch_if e.id name scopes) := by
      rw [List.map_map]
      exact List.map_congr_left (fun x _ => patch_if_idem e.id name scopes x)
    refine ⟨?_, ?_, ?_⟩
    · intro _
      constructor
      · rw [e1]
      · refine ⟨apply_rs_patch name scopes e, ?_, ?_, ?_, ?_, ?_⟩
        · rw [e1]
        · rw [e1]
          show apply_rs_patch name scopes e ∈ st.servers.map (patch_if e.id name scopes)
          rw [← hfe]
          exact List.mem_map_of_mem _ he_mem
        · rw [apply_rs_patch_identifier]
          exact he_id
        · rfl
        · rw [e1]
          intro v hv hvid
          obtain ⟨w, hw, rfl⟩ := List.mem_map.mp hv
          have hwid : w.identifier = identifier := by
            rw [← patch_if_identifier e.id name scopes w]
            exact hvid
          have hwe : w = e :=
            List.inj_on_of_nodup_map hident hw he_mem (hwid.trans he_id.symm)
          rw [hwe, hfe]
    · rw [e1]
      show (ensure_resource_server
          { st with servers := st.servers.map (patch_if e.id name scopes) }
          identifier name scopes).2.1
        = { st with servers := st.servers.map (patch_if e.id name scopes) }
      unfold ensure_resource_server
      rw [find_resource_server_eq, hfind2]
      dsimp only
      rw [update_resource_server_eq]
      dsimp only
      have hpe_id : (patch_if e.id name scopes e).id = e.id := patch_if_id _ _ _ _
      rw [hpe_id, hmapmap]
    · rw [e1]
      show (ensure_resource_server
          { st with servers := st.servers.map (patch_if e.id name scopes) }
          identifier name scopes).2.2 = _
      unfold ensure_resource_server
      rw [find_resource_server_eq, hfind2]

/-- Witness for C1: on a tenant holding one definition for the audience with
scopes {a,b,c}, reconciling to {b,c,d} issues get-then-update (no create) and
a second identical call leaves the state unchanged. -/
theorem c1_ensure_resource_server_convergence_witness :
    (ensure_resource_server
      ⟨[⟨0, "Old", "https://fraud-rule-engine-api", [⟨"a", "A"⟩, ⟨"b", "B"⟩, ⟨"c", "C"⟩],
         "RS256", true, 7200, 7200, true, "access_token_authz"⟩], 5⟩
      "https://fraud-rule-engine-api" "Fraud Rule Engine API"
      [⟨"b", "B"⟩, ⟨"c", "C"⟩, ⟨"d", "D"⟩]).2.2
      = [MgmtCall.getResourceServers, MgmtCall.updateResourceServer] ∧
    (ensure_resource_server
      (ensure_resource_server
        ⟨[⟨0, "Old", "https://fraud-rule-engine-api", [⟨"a", "A"⟩, ⟨"b", "B"⟩, ⟨"c", "C"⟩],
           "RS256", true, 7200, 7200, true, "access_token_authz"⟩], 5⟩
        "https://fraud-rule-engine-api" "Fraud Rule Engine API"
        [⟨"b", "B"⟩, ⟨"c", "C"⟩, ⟨"d", "D"⟩]).2.1
      "https://fraud-rule-engine-api" "Fraud Rule Engine API"
      [⟨"b", "B"⟩, ⟨"c", "C"⟩, ⟨"d", "D"⟩]).2.1
      = (ensure_resource_server
        ⟨[⟨0, "Old", "https://fraud-rule-engine-api", [⟨"a", "A"⟩, ⟨"b", "B"⟩, ⟨"c", "C"⟩],
           "RS256", true, 7200, 7200, true, "access_token_authz"⟩], 5⟩
        "https://fraud-rule-engine-api" "Fraud Rule Engine API"
        [⟨"b", "B"⟩, ⟨"c", "C"⟩, ⟨"d", "D"⟩]).2.1 := by
  have h := c1_ensure_resource_server_convergence
    ⟨[⟨0, "Old", "https://fraud-rule-engine-api", [⟨"a", "A"⟩, ⟨"b", "B"⟩, ⟨"c", "C"⟩],
       "RS256", true, 7200, 7200, true, "access_token_authz"⟩], 5⟩
    "https://fraud-rule-engine-api" "Fraud Rule Engine API"
    [⟨"b", "B"⟩, ⟨"c", "C"⟩, ⟨"d", "D"⟩]
    (by decide) (by decide) (by decide)
  exact ⟨(h.1 ⟨⟨0, "Old", "https://fraud-rule-engine-api",
    [⟨"a", "A"⟩, ⟨"b", "B"⟩, ⟨"c", "C"⟩],
    "RS256", true, 7200, 7200, true, "access_token_authz"⟩, by decide, rfl⟩).1, h.2.1⟩

end Auth0Setup

namespace Auth0Verify

open Auth0Setup

/-! ## Theorems about the verifier (claims C4, C7, C9) -/

lemma verify_api_exists_name (env : VerifierEnv) :
    (verify_api_exists env).name = "API Exists" := by
  unfold verify_api_exists
  repeat' split
  all_goals rfl

lemma verify_api_scopes_name (env : VerifierEnv) :
    (verify_api_scopes env).name = "API Scopes" := by
  unfold verify_api_scopes
  repeat' split
  all_goals try rfl
  all_goals (dsimp only; split <;> rfl)

lemma verify_m2m_app_exists_name (env : VerifierEnv) :
    (verify_m2m_app_exists env).name = "M2M App Exists" := by
  unfold verify_m2m_app_exists
  repeat' split
  all_goals rfl

lemma verify_client_grant_name (env : VerifierEnv) :
    (verify_client_grant env).name = "Client Grant" := by
  unfold verify_client_grant
  repeat' split
  all_goals try rfl
  all_goals (dsimp only; split <;> rfl)

/-- C4: `run_all_checks` always returns exactly four results, one per check,
in the order API Exists, API Scopes, M2M App Exists, Client Grant; every
check executes regardless of the other checks' outcomes; and when every
remote fetch fails, each failure is reported as a `passed = false` result
rather than raised, all four results still being produced. -/
theorem c4_run_all_checks_complete :
    (∀ env : VerifierEnv,
      (run_all_checks env).length = 4 ∧
      (run_all_checks env).map VerificationResult.name
        = ["API Exists", "API Scopes", "M2M App Exists", "Client Grant"] ∧
      run_all_checks env
        = [verify_api_exists env, verify_api_scopes env,
           verify_m2m_app_exists env, verify_client_grant env]) ∧
    (∀ (aud nm : String) (e₁ e₂ e₃ : HttpErr),
      (run_all_checks
        ⟨aud, nm, Except.error e₁, Except.error e₂, fun _ => Except.error e₃⟩).map
          VerificationResult.passed = [false, false, false, false]) := by
  constructor
  · intro env
    refine ⟨rfl, ?_, rfl⟩
    simp [run_all_checks, verify_api_exists_name, verify_api_scopes_name,
      verify_m2m_app_exists_name, verify_client_grant_name]
  · intro aud nm e₁ e₂ e₃
    rfl

/-- C7: for a found API definition, the API Scopes check passes iff every
expected scope value is present in its scope set (extras never fail it); and
removing exactly `read:metrics` from a fully-provisioned remote state flips
only this check to failed with `missing = [read:metrics]`, leaving the other
three checks' results unchanged. -/
theorem c7_api_scopes_semantics :
    (∀ (env : VerifierEnv) (apis : List ResourceServer) (api : ResourceServer),
      env.resource_servers_resp = Except.ok apis →
      apis.find? (fun a => a.identifier == env.audience) = some api →
      ((verify_api_scopes env).passed = true ↔
        ∀ s ∈ EXPECTED_SCOPES, s ∈ api.scopes.map (fun sc => sc.value))) ∧
    (run_all_checks good_env).map VerificationResult.passed
      = [true, true, true, true] ∧
    (verify_api_scopes degraded_env).passed = false ∧
    (verify_api_scopes degraded_env).details = ["Missing: read:metrics"] ∧
    verify_api_exists degraded_env = verify_api_exists good_env ∧
    verify_m2m_app_exists degraded_env = verify_m2m_app_exists good_env ∧
    verify_client_grant degraded_env = verify_client_grant good_env := by
  refine ⟨?_, by decide, by decide, by decide, by decide, by decide, by decide⟩
  intro env apis api hresp hfind
  cases hm : EXPECTED_SCOPES.filter
      (fun s => !((api.scopes.map (fun sc => sc.value)).contains s)) with
  | nil =>
    have hpassed : (verify_api_scopes env).passed = true := by
      simp only [verify_api_scopes, hresp, hfind, hm]
      rw [if_neg (by simp)]
    rw [hpassed]
    simp only [true_iff]
    intro s hs
    have := List.filter_eq_nil_iff.mp hm s hs
    simpa [List.contains, List.elem_iff] using this
  | cons hd tl =>
    have hpassed : (verify_api_scopes env).passed = false := by
      simp only [verify_api_scopes, hresp, hfind, hm]
      rw [if_pos (by simp)]
    rw [hpassed]
    simp only [Bool.false_eq_true, false_iff]
    intro hall
    have hhd : hd ∈ EXPECTED_SCOPES.filter
        (fun s => !((api.scopes.map (fun sc => sc.value)).contains s)) := by
      rw [hm]; exact List.mem_cons_self hd tl
    have := List.mem_filter.mp hhd
    have hnotmem : ¬ hd ∈ api.scopes.map (fun sc => sc.value) := by
      have hb := this.2
      simpa [List.contains, List.elem_iff] using hb
    exact hnotmem (hall hd this.1)

/-- Witness for C7: the fully-provisioned remote state of the scenario
satisfies the iff — the check passes there and every expected scope is
present in the found definition. -/
theorem c7_api_scopes_semantics_witness :
    good_env.resource_servers_resp = Except.ok [good_api] ∧
    ([good_api].find? (fun a => a.identifier == good_env.audience) = some good_api) ∧
    ((verify_api_scopes good_env).passed = true ↔
      ∀ s ∈ EXPECTED_SCOPES, s ∈ good_api.scopes.map (fun sc => sc.value)) :=
  ⟨rfl, by decide,
    (c7_api_scopes_semantics.1 good_env [good_api] good_api rfl (by decide))⟩

/-- C9: the verifier's `_find_m2m_client` inspects only the single
unpaginated clients response (the first default page of the listing); when
the target client is absent from that page but present in the full listing,
the M2M App Exists check and the Client Grant check both report failure,
although the bootstrap's paginated `find_client_by_name` locates the client. -/
theorem c9_unpaginated_lookup_misses
    (clients : List Client) (m2m_name aud : String)
    (rs_resp : Except HttpErr (List ResourceServer))
    (grants_resp : String → Except HttpErr (List Grant))
    (hnot : ∀ c ∈ first_listing_page clients, ¬ c.name = m2m_name)
    (hin : ∃ c ∈ clients, c.name = m2m_name) :
    (verify_m2m_app_exists
      ⟨aud, m2m_name, rs_resp, Except.ok (first_listing_page clients), grants_resp⟩).passed
        = false ∧
    (verify_client_grant
      ⟨aud, m2m_name, rs_resp, Except.ok (first_listing_page clients), grants_resp⟩).passed
        = false ∧
    ∃ c, find_client_by_name clients m2m_name = some c ∧ c.name = m2m_name := by
  have hnone : verifier_find_m2m_client
      ⟨aud, m2m_name, rs_resp, Except.ok (first_listing_page clients), grants_resp⟩ = none := by
    simp only [verifier_find_m2m_client]
    rw [List.find?_eq_none]
    intro c hc
    simpa using hnot c hc
  refine ⟨?_, ?_, ?_⟩
  · simp [verify_m2m_app_exists, hnone]
  · simp [verify_client_grant, hnone]
  · have h1 : find_client_by_name clients m2m_name
        = clients.find? (fun c => c.name == m2m_name) := by
      show (find_client_by_name_pages clients m2m_name 0).1 = _
      rw [find_pages_fst]
      simp
    obtain ⟨c, hc, hcn⟩ := hin
    have hsome : (clients.find? (fun c => c.name == m2m_name)).isSome :=
      List.find?_isSome.mpr ⟨c, hc, by simp [hcn]⟩
    obtain ⟨c', hc'⟩ := Option.isSome_iff_exists.mp hsome
    exact ⟨c', h1.trans hc', by simpa using List.find?_some hc'⟩

/-- Witness for C9: with 50 filler clients on the first page and the target
on the second, the verifier's two client-dependent checks fail while
`find_client_by_name` still finds the target. -/
theorem c9_unpaginated_lookup_misses_witness :
    (verify_m2m_app_exists
      ⟨"a", "Fraud Rule Engine M2M", Except.error ⟨"e"⟩,
        Except.ok (first_listing_page
          (List.replicate 50 ⟨"f", "filler", "t"⟩
            ++ [⟨"t", "Fraud Rule Engine M2M", "non_interactive"⟩])),
        fun _ => Except.error ⟨"e"⟩⟩).passed = false ∧
    (∃ c, find_client_by_name
        (List.replicate 50 ⟨"f", "filler", "t"⟩
          ++ [⟨"t", "Fraud Rule Engine M2M", "non_interactive"⟩])
        "Fraud Rule Engine M2M" = some c ∧ c.name = "Fraud Rule Engine M2M") := by
  have h := c9_unpaginated_lookup_misses
    (List.replicate 50 ⟨"f", "filler", "t"⟩
      ++ [⟨"t", "Fraud Rule Engine M2M", "non_interactive"⟩])
    "Fraud Rule Engine M2M" "a" (Except.error ⟨"e"⟩) (fun _ => Except.error ⟨"e"⟩)
    (by decide)
    ⟨⟨"t", "Fraud Rule Engine M2M", "non_interactive"⟩, by decide, rfl⟩
  exact ⟨h.1, h.2.2⟩

end Auth0Verify
